import Mathlib

/-!
Verification development for the reliable-changelog action.

The definitions below are a shallow embedding of the TypeScript sources
(`src/index.ts`, current iteration): JavaScript strings are modelled as
Lean `String` (operating on the underlying `List Char`), JavaScript
numbers appearing in the version computation are modelled by `JsNum`
(an integer, `NaN`, or `Infinity` — the values reachable from
`parseInt` and `Math.ceil` on the non‑negative counters used here),
dynamic JSON documents by the inductive `Json`, JavaScript property
access (including `undefined` and thrown `TypeError`s) by `JsVal` and
`Except`, and the action's observable side effects (`core.info`,
`core.warning`, `core.setFailed`, git calls, file writes, outputs) by
an `Event` trace produced by the `run` model.
-/

/-- Helper for `jsIncludes`: does `pat` occur as a contiguous sublist? -/
def infixOfAux (pat : List Char) : List Char → Bool
  | [] => pat.isEmpty
  | x :: rest => List.isPrefixOf pat (x :: rest) || infixOfAux pat rest

/-- JavaScript `haystack.includes(needle)`: substring containment. -/
def jsIncludes (s pat : String) : Bool :=
  infixOfAux pat.data s.data

/-- JavaScript `s.split(c)` for a single-character separator. -/
def jsSplit (s : String) (c : Char) : List String :=
  s.data.foldr
    (fun x acc =>
      match acc with
      | [] => [String.mk [x]]
      | h :: t => if x = c then "" :: h :: t else String.mk (x :: h.data) :: t)
    [""]

/-- JavaScript `s.startsWith(p)`. -/
def jsStartsWith (s p : String) : Bool :=
  List.isPrefixOf p.data s.data

/-- JavaScript `s.substring(n)` (drop the first `n` code units; we model
code units as characters). -/
def jsDrop (s : String) (n : Nat) : String :=
  String.mk (s.data.drop n)

/-- JavaScript `s.substring(0, 1)` (the first character of `s`). -/
def jsTake1 (s : String) : String :=
  String.mk (s.data.take 1)

/-- JavaScript `s.trim()`. -/
def jsTrim (s : String) : String :=
  String.mk (((s.data.dropWhile Char.isWhitespace).reverse.dropWhile Char.isWhitespace).reverse)

/-- Helper for `jsReplace`: replace the first occurrence of `pat` in the list. -/
def replaceFirstAux (pat rep : List Char) : List Char → List Char
  | [] => []
  | x :: rest =>
    if List.isPrefixOf pat (x :: rest) then rep ++ (x :: rest).drop pat.length
    else x :: replaceFirstAux pat rep rest

/-- JavaScript `s.replace(pat, rep)` with a string pattern: replaces the
first occurrence only (an empty pattern matches at the start). -/
def jsReplace (s pat rep : String) : String :=
  if pat.data.isEmpty then String.mk (rep.data ++ s.data)
  else String.mk (replaceFirstAux pat.data rep.data s.data)

/-- The JavaScript numbers reachable in the version computation:
integers, `NaN` (from `parseInt` on non-numeric text or `0/0`) and
`Infinity` (from division of a positive count by zero). -/
inductive JsNum where
  | int (i : Int)
  | nan
  | inf
deriving DecidableEq

/-- JavaScript number-to-string coercion for `JsNum`. -/
def jsNumToString : JsNum → String
  | .int i => toString i
  | .nan => "NaN"
  | .inf => "Infinity"

/-- JavaScript `+` on the reachable numbers (`NaN` propagates,
`Infinity` absorbs integers). -/
def jsNumAdd : JsNum → JsNum → JsNum
  | .nan, _ => .nan
  | _, .nan => .nan
  | .inf, _ => .inf
  | _, .inf => .inf
  | .int a, .int b => .int (a + b)

/-- JavaScript `x == 0` on the reachable numbers (`NaN == 0` and
`Infinity == 0` are false; `-0 == 0` is true and `-0` is already
normalised to `0` by `Int`). -/
def jsNumEqZero : JsNum → Bool
  | .int i => i == 0
  | _ => false

/-- JavaScript `parseInt(s)`: skip leading whitespace, optional sign,
then the maximal run of decimal digits; `NaN` when there is none. -/
def jsParseInt (s : String) : JsNum :=
  let t := s.data.dropWhile Char.isWhitespace
  let digitsVal : List Char → JsNum := fun cs =>
    let ds := cs.takeWhile Char.isDigit
    if ds.isEmpty then .nan
    else .int (ds.foldl (fun a c => a * 10 + ((c.toNat : Int) - 48)) 0)
  match t with
  | '-' :: rest =>
    match digitsVal rest with
    | .int n => .int (-n)
    | other => other
  | '+' :: rest => digitsVal rest
  | _ => digitsVal t

/-- JavaScript `Math.ceil(n / k)` where `n` is a non-negative integer
counter and `k` a `JsNum` (the parsed bump interval).  For `k > 0` this
is exact ceiling division; for `k = 0` the JS division yields
`Infinity` (or `NaN` when `n = 0`); for `k < 0` the quotient is
non-positive and `Math.ceil` truncates toward zero; `k = NaN` gives
`NaN` and `k = Infinity` gives `0`. -/
def jsCeilDivNat (n : Nat) (k : JsNum) : JsNum :=
  match k with
  | .nan => .nan
  | .inf => .int 0
  | .int i =>
    if 0 < i then .int (((n + i.toNat - 1) / i.toNat : Nat) : Int)
    else if i = 0 then (if n = 0 then .nan else .inf)
    else .int (-((n / i.natAbs : Nat) : Int))

/-- State of the counting loop in `calcTrueNewVersionFromLog`
(`isMajorChange`, `numPatches`, `numMinor`). -/
structure CalcState where
  isMajorChange : Bool
  numPatches : Nat
  numMinor : Nat
deriving DecidableEq

/-- One iteration of the `for (const commitType of includedTypes)` loop
in `calcTrueNewVersionFromLog`: a line containing `* <type>:` bumps the
minor counter when the type is a minor type, else the patch counter when
it is a patch type, else minor for `feat` and patch otherwise. -/
def typeStep (minorCommitTypes patchCommitTypes : List String) (logLine : String)
    (st : CalcState) (commitType : String) : CalcState :=
  if jsIncludes logLine ("* " ++ commitType ++ ":") then
    if minorCommitTypes.contains commitType then
      { st with numMinor := st.numMinor + 1 }
    else if patchCommitTypes.contains commitType then
      { st with numPatches := st.numPatches + 1 }
    else if commitType == "feat" then
      { st with numMinor := st.numMinor + 1 }
    else
      { st with numPatches := st.numPatches + 1 }
  else st

/-- The body of the `changelog.split("\n").forEach(...)` loop in
`calcTrueNewVersionFromLog`: detect the major-release marker, then run
the per-type counting loop. -/
def processLine (majorReleaseCommitMessage : String)
    (minorCommitTypes patchCommitTypes includedTypes : List String)
    (st : CalcState) (logLine : String) : CalcState :=
  let st :=
    if jsIncludes logLine ("* " ++ majorReleaseCommitMessage) then
      { st with isMajorChange := true }
    else st
  includedTypes.foldl (typeStep minorCommitTypes patchCommitTypes logLine) st

/-- `calcTrueNewVersionFromLog` from `src/index.ts`: count minor/patch
commits per line, then assemble
`` `${isMajor ? parseInt(v0)+1 : v0}.${!isMajor ? parseInt(v1)+minorAdded : 0}.${(!isMajor && minorAdded == 0) ? parseInt(v2)+ceil(numPatches/patchInterval) : 0}` ``.
Out-of-range accesses `versions[i]` yield `undefined`, which behaves as
the string `"undefined"` under `parseInt`. -/
def calcTrueNewVersionFromLog (currentVersion changelog majorReleaseCommitMessage : String)
    (minorCommitTypes patchCommitTypes includedTypes : List String)
    (minorCommitBumpInterval patchCommitBumpInterval : JsNum) : String :=
  let st := (jsSplit changelog '\n').foldl
    (processLine majorReleaseCommitMessage minorCommitTypes patchCommitTypes includedTypes)
    ⟨false, 0, 0⟩
  let versions := jsSplit currentVersion '.'
  let minorAdded := jsCeilDivNat st.numMinor minorCommitBumpInterval
  let seg1 :=
    if st.isMajorChange then
      jsNumToString (jsNumAdd (jsParseInt (versions.getD 0 "undefined")) (.int 1))
    else versions.getD 0 "undefined"
  let seg2 :=
    if !st.isMajorChange then
      jsNumToString (jsNumAdd (jsParseInt (versions.getD 1 "undefined")) minorAdded)
    else "0"
  let seg3 :=
    if !st.isMajorChange && jsNumEqZero minorAdded then
      jsNumToString (jsNumAdd (jsParseInt (versions.getD 2 "undefined"))
        (jsCeilDivNat st.numPatches patchCommitBumpInterval))
    else "0"
  seg1 ++ "." ++ seg2 ++ "." ++ seg3

/-- C3 counterexample: on Scenario A's exact input (two feat lines, one
fix line, minor set `{feat}`, patch set `{fix}`, both intervals `5`,
current version `1.2.3`, no major marker matched) the computed version
is NOT `1.2.3`: `Math.ceil(2 / 5) = 1`, so the minor segment bumps. -/
theorem c3_scenario_a_counterexample :
    calcTrueNewVersionFromLog "1.2.3" "* feat: add x\n* feat: add y\n* fix: bug"
      "major release" ["feat"] ["fix"] ["feat", "fix"] (.int 5) (.int 5) ≠ "1.2.3" := by
  decide

/-- C3 amended: on Scenario A's exact input the computed new version is
`1.3.0` (minor bump `ceil(2/5) = 1`, patch reset to `0`). -/
theorem c3_scenario_a_amended :
    calcTrueNewVersionFromLog "1.2.3" "* feat: add x\n* feat: add y\n* fix: bug"
      "major release" ["feat"] ["fix"] ["feat", "fix"] (.int 5) (.int 5) = "1.3.0" := by
  decide

/-- The bucket a commit type is counted toward in the per-type loop:
minor when listed in the minor types, else patch when listed in the
patch types, else minor exactly for `feat`. -/
def countsAsMinor (minorCommitTypes patchCommitTypes : List String) (t : String) : Bool :=
  if minorCommitTypes.contains t then true
  else if patchCommitTypes.contains t then false
  else t == "feat"

/-- Number of increments a single changelog line contributes to the
minor counter: one per included type whose `* <type>:` substring the
line contains and which is bucketed as minor. -/
def minorIncrOfLine (includedTypes minorCommitTypes patchCommitTypes : List String)
    (line : String) : Nat :=
  (includedTypes.filter (fun t =>
    jsIncludes line ("* " ++ t ++ ":") && countsAsMinor minorCommitTypes patchCommitTypes t)).length

/-- Number of increments a single changelog line contributes to the
patch counter. -/
def patchIncrOfLine (includedTypes minorCommitTypes patchCommitTypes : List String)
    (line : String) : Nat :=
  (includedTypes.filter (fun t =>
    jsIncludes line ("* " ++ t ++ ":") && !countsAsMinor minorCommitTypes patchCommitTypes t)).length

theorem typeStep_isMajorChange (mt pt : List String) (line : String) (st : CalcState) (t : String) :
    (typeStep mt pt line st t).isMajorChange = st.isMajorChange := by
  unfold typeStep
  repeat' split
  all_goals rfl

theorem foldl_typeStep_isMajorChange (mt pt : List String) (line : String) :
    ∀ (l : List String) (st : CalcState),
      (l.foldl (typeStep mt pt line) st).isMajorChange = st.isMajorChange
  | [], st => rfl
  | t :: ts, st => by
    rw [List.foldl_cons, foldl_typeStep_isMajorChange mt pt line ts, typeStep_isMajorChange]

theorem typeStep_numMinor (mt pt : List String) (line : String) (st : CalcState) (t : String) :
    (typeStep mt pt line st t).numMinor =
      st.numMinor +
        (if jsIncludes line ("* " ++ t ++ ":") && countsAsMinor mt pt t then 1 else 0) := by
  unfold typeStep countsAsMinor
  repeat' split <;> simp_all

theorem typeStep_numPatches (mt pt : List String) (line : String) (st : CalcState) (t : String) :
    (typeStep mt pt line st t).numPatches =
      st.numPatches +
        (if jsIncludes line ("* " ++ t ++ ":") && !countsAsMinor mt pt t then 1 else 0) := by
  unfold typeStep countsAsMinor
  repeat' split <;> simp_all

theorem foldl_typeStep_numMinor (mt pt : List String) (line : String) :
    ∀ (l : List String) (st : CalcState),
      (l.foldl (typeStep mt pt line) st).numMinor =
        st.numMinor + minorIncrOfLine l mt pt line
  | [], st => by simp [minorIncrOfLine]
  | t :: ts, st => by
    rw [List.foldl_cons, foldl_typeStep_numMinor mt pt line ts, typeStep_numMinor]
    unfold minorIncrOfLine
    by_cases h : jsIncludes line ("* " ++ t ++ ":") && countsAsMinor mt pt t <;>
      (simp [h, List.filter_cons, minorIncrOfLine]; try omega)

theorem foldl_typeStep_numPatches (mt pt : List String) (line : String) :
    ∀ (l : List String) (st : CalcState),
      (l.foldl (typeStep mt pt line) st).numPatches =
        st.numPatches + patchIncrOfLine l mt pt line
  | [], st => by simp [patchIncrOfLine]
  | t :: ts, st => by
    rw [List.foldl_cons, foldl_typeStep_numPatches mt pt line ts, typeStep_numPatches]
    unfold patchIncrOfLine
    by_cases h : jsIncludes line ("* " ++ t ++ ":") && !countsAsMinor mt pt t <;>
      (simp [h, List.filter_cons, patchIncrOfLine]; try omega)

theorem processLine_isMajorChange (mm : String) (mt pt it : List String)
    (st : CalcState) (line : String) :
    (processLine mm mt pt it st line).isMajorChange =
      (st.isMajorChange || jsIncludes line ("* " ++ mm)) := by
  unfold processLine
  by_cases h : jsIncludes line ("* " ++ mm) <;>
    simp [h, foldl_typeStep_isMajorChange]

theorem processLine_numMinor (mm : String) (mt pt it : List String)
    (st : CalcState) (line : String) :
    (processLine mm mt pt it st line).numMinor = st.numMinor + minorIncrOfLine it mt pt line := by
  unfold processLine
  by_cases h : jsIncludes line ("* " ++ mm) <;>
    simp [h, foldl_typeStep_numMinor]

theorem processLine_numPatches (mm : String) (mt pt it : List String)
    (st : CalcState) (line : String) :
    (processLine mm mt pt it st line).numPatches =
      st.numPatches + patchIncrOfLine it mt pt line := by
  unfold processLine
  by_cases h : jsIncludes line ("* " ++ mm) <;>
    simp [h, foldl_typeStep_numPatches]

theorem foldl_processLine_isMajorChange (mm : String) (mt pt it : List String) :
    ∀ (lines : List String) (st : CalcState),
      (lines.foldl (processLine mm mt pt it) st).isMajorChange =
        (st.isMajorChange || lines.any (fun l => jsIncludes l ("* " ++ mm)))
  | [], st => by simp
  | l :: ls, st => by
    rw [List.foldl_cons, foldl_processLine_isMajorChange mm mt pt it ls,
      processLine_isMajorChange]
    simp [Bool.or_assoc]

theorem foldl_processLine_numMinor (mm : String) (mt pt it : List String) :
    ∀ (lines : List String) (st : CalcState),
      (lines.foldl (processLine mm mt pt it) st).numMinor =
        st.numMinor + (lines.map (minorIncrOfLine it mt pt)).sum
  | [], st => by simp
  | l :: ls, st => by
    rw [List.foldl_cons, foldl_processLine_numMinor mm mt pt it ls, processLine_numMinor]
    simp; omega

theorem foldl_processLine_numPatches (mm : String) (mt pt it : List String) :
    ∀ (lines : List String) (st : CalcState),
      (lines.foldl (processLine mm mt pt it) st).numPatches =
        st.numPatches + (lines.map (patchIncrOfLine it mt pt)).sum
  | [], st => by simp
  | l :: ls, st => by
    rw [List.foldl_cons, foldl_processLine_numPatches mm mt pt it ls, processLine_numPatches]
    simp; omega

/-- C1: for every changelog text, current version, and policy, if some
line of the changelog contains the substring `* <majorReleaseCommitMessage>`,
the computed new version is `(major+1).0.0` — minor and patch are `0`
regardless of the other bucket counts. -/
theorem c1_major_override (currentVersion changelog majorReleaseCommitMessage : String)
    (vmaj vmin vpat : String) (mt pt it : List String) (ki kp : JsNum) (maj : Int)
    (hsplit : jsSplit currentVersion '.' = [vmaj, vmin, vpat])
    (hparse : jsParseInt vmaj = .int maj)
    (hline : ∃ l ∈ jsSplit changelog '\n', jsIncludes l ("* " ++ majorReleaseCommitMessage) = true) :
    calcTrueNewVersionFromLog currentVersion changelog majorReleaseCommitMessage mt pt it ki kp =
      toString (maj + 1) ++ ".0.0" := by
  have hany : (jsSplit changelog '\n').any
      (fun l => jsIncludes l ("* " ++ majorReleaseCommitMessage)) = true := by
    rcases hline with ⟨l, hl, hinc⟩
    exact List.any_eq_true.mpr ⟨l, hl, hinc⟩
  unfold calcTrueNewVersionFromLog
  rw [hsplit]
  simp only [foldl_processLine_isMajorChange, hany, Bool.false_or, if_true]
  simp only [List.getD_cons_zero, List.getD_cons_succ]
  rw [hparse]
  simp only [jsNumAdd, jsNumToString]
  apply String.ext
  simp [String.data_append]

/-- C1 witness: a concrete major-marker changelog with version `2.5.1`
computes `3.0.0`. -/
theorem c1_major_override_witness :
    calcTrueNewVersionFromLog "2.5.1" "* feat: major release" "feat: major release"
      ["feat"] ["fix"] ["feat", "fix"] (.int 1) (.int 1) = "3.0.0" :=
  c1_major_override "2.5.1" "* feat: major release" "feat: major release"
    "2" "5" "1" ["feat"] ["fix"] ["feat", "fix"] (.int 1) (.int 1) 2
    (by decide) (by decide) ⟨"* feat: major release", by decide, by decide⟩

theorem jsCeilDivNat_pos (n K : Nat) (hK : 0 < K) :
    jsCeilDivNat n (.int (K : Int)) = .int (((n + K - 1) / K : Nat) : Int) := by
  have h : (0 : Int) < (K : Int) := by exact_mod_cast hK
  simp [jsCeilDivNat, h]

theorem filter_split_length {α : Type} (p q : α → Bool) :
    ∀ l : List α,
      (l.filter (fun x => p x && q x)).length + (l.filter (fun x => p x && !q x)).length
        = (l.filter p).length
  | [] => rfl
  | x :: xs => by
    have ih := filter_split_length p q xs
    by_cases hp : p x = true <;> by_cases hq : q x = true <;>
      simp [List.filter_cons, hp, hq] <;>
      omega

/-- C2: in the non-major case with positive intervals, the minor segment
is exactly `minor + ceil(N / K)` for the `N` increments counted toward
the minor bucket; the patch segment is `0` whenever that ceiling is
positive, and is `patch + ceil(patchCount / patchInterval)` exactly when
the ceiling is `0`. -/
theorem c2_bump_interval_law (currentVersion changelog majorReleaseCommitMessage : String)
    (vmaj vmin vpat : String) (mt pt it : List String) (K P : Nat) (minI patI : Int)
    (hK : 0 < K) (hP : 0 < P)
    (hsplit : jsSplit currentVersion '.' = [vmaj, vmin, vpat])
    (hmin : jsParseInt vmin = .int minI)
    (hpat : jsParseInt vpat = .int patI)
    (hnomajor : ∀ l ∈ jsSplit changelog '\n',
      jsIncludes l ("* " ++ majorReleaseCommitMessage) = false) :
    calcTrueNewVersionFromLog currentVersion changelog majorReleaseCommitMessage mt pt it
        (.int (K : Int)) (.int (P : Int)) =
      vmaj ++ "." ++
        toString (minI +
          (((((jsSplit changelog '\n').map (minorIncrOfLine it mt pt)).sum + K - 1) / K : Nat) : Int)) ++
        "." ++
        (if ((((jsSplit changelog '\n').map (minorIncrOfLine it mt pt)).sum + K - 1) / K : Nat) = 0
          then toString (patI +
            (((((jsSplit changelog '\n').map (patchIncrOfLine it mt pt)).sum + P - 1) / P : Nat) : Int))
          else "0") := by
  have hany : ((jsSplit changelog '\n').any
      (fun l => jsIncludes l ("* " ++ majorReleaseCommitMessage))) = false := by
    rw [List.any_eq_false]
    intro l hl
    simp [hnomajor l hl]
  unfold calcTrueNewVersionFromLog
  rw [hsplit]
  simp only [foldl_processLine_isMajorChange, hany, Bool.false_or, Bool.not_false,
    if_false, if_true, Bool.true_and]
  simp only [List.getD_cons_zero, List.getD_cons_succ]
  rw [foldl_processLine_numMinor, foldl_processLine_numPatches]
  simp only [Nat.zero_add]
  rw [jsCeilDivNat_pos _ K hK, jsCeilDivNat_pos _ P hP, hmin, hpat]
  simp only [jsNumAdd, jsNumEqZero, jsNumToString, beq_iff_eq, Int.natCast_eq_zero]
  by_cases hz : (((jsSplit changelog '\n').map (minorIncrOfLine it mt pt)).sum + K - 1) / K = 0 <;>
    simp [hz]

/-- C2 witness: Scenario B — two feat lines and one fix line with minor
interval `2` bump `1.2.3` to `1.3.0`. -/
theorem c2_bump_interval_law_witness :
    calcTrueNewVersionFromLog "1.2.3" "* feat: add x\n* feat: add y\n* fix: bug"
      "major release" ["feat"] ["fix"] ["feat", "fix"]
      (.int ((2 : Nat) : Int)) (.int ((5 : Nat) : Int)) = "1.3.0" := by
  rw [c2_bump_interval_law "1.2.3" "* feat: add x\n* feat: add y\n* fix: bug"
    "major release" "1" "2" "3" ["feat"] ["fix"] ["feat", "fix"] 2 5 2 3
    (by decide) (by decide) (by decide) (by decide) (by decide) (by decide)]
  decide

/-- C5: in the version computation each changelog line contributes
exactly one increment per included commit type whose `* <type>:`
substring it contains (to the minor counter when the type is bucketed
minor, else to the patch counter), with no deduplication: a line
matching `k` distinct included types contributes exactly `k`
increments, and no increments beyond those. -/
theorem c5_multi_type_counting (majorReleaseCommitMessage : String)
    (mt pt it : List String) (lines : List String) (st : CalcState)
    (_hnd : it.Nodup) :
    ((lines.foldl (processLine majorReleaseCommitMessage mt pt it) st).numMinor
        = st.numMinor + (lines.map (minorIncrOfLine it mt pt)).sum) ∧
    ((lines.foldl (processLine majorReleaseCommitMessage mt pt it) st).numPatches
        = st.numPatches + (lines.map (patchIncrOfLine it mt pt)).sum) ∧
    (∀ line, minorIncrOfLine it mt pt line + patchIncrOfLine it mt pt line
        = (it.filter (fun t => jsIncludes line ("* " ++ t ++ ":"))).length) := by
  refine ⟨foldl_processLine_numMinor _ _ _ _ _ _, foldl_processLine_numPatches _ _ _ _ _ _, ?_⟩
  intro line
  exact filter_split_length _ _ it

/-- C5 witness: a line containing both `* feat:` and `* fix:` is counted
in both buckets (two increments), alongside an ordinary fix line. -/
theorem c5_multi_type_counting_witness :
    ((["* feat: a * fix: b", "* fix: c"].foldl
        (processLine "major release" ["feat"] ["fix"] ["feat", "fix"]) ⟨false, 0, 0⟩).numMinor
      = 0 + (["* feat: a * fix: b", "* fix: c"].map
          (minorIncrOfLine ["feat", "fix"] ["feat"] ["fix"])).sum) ∧
    ((["* feat: a * fix: b", "* fix: c"].foldl
        (processLine "major release" ["feat"] ["fix"] ["feat", "fix"]) ⟨false, 0, 0⟩).numPatches
      = 0 + (["* feat: a * fix: b", "* fix: c"].map
          (patchIncrOfLine ["feat", "fix"] ["feat"] ["fix"])).sum) :=
  ⟨(c5_multi_type_counting "major release" ["feat"] ["fix"] ["feat", "fix"]
      ["* feat: a * fix: b", "* fix: c"] ⟨false, 0, 0⟩ (by decide)).1,
   (c5_multi_type_counting "major release" ["feat"] ["fix"] ["feat", "fix"]
      ["* feat: a * fix: b", "* fix: c"] ⟨false, 0, 0⟩ (by decide)).2.1⟩

/-- JavaScript `array.join("\n")`. -/
def joinWith (sep : String) : List String → String
  | [] => ""
  | [x] => x
  | x :: xs => x ++ sep ++ joinWith sep xs

/-- The fixed key set of the `typeOutputs` object literal in
`filterChangeLog` (its `Object.keys` enumeration order). -/
def canonicalTypes : List String :=
  ["feat", "fix", "build", "docs", "ci", "perf", "refactor", "revert", "style", "test"]

/-- The bullet built for a bucketed line when prefix stripping is on:
`logLine.substring(commitType.length + 3)` with one leading space
removed, re-marked with `* `. -/
def stripBullet (commitType logLine : String) : String :=
  let strippedCommit := jsDrop logLine (commitType.length + 3)
  let strippedCommit :=
    if jsStartsWith strippedCommit " " then jsDrop strippedCommit 1 else strippedCommit
  "* " ++ strippedCommit

/-- `typeOutputs[commitType].push(x)`: for a key outside the object
literal the lookup yields `undefined` and the `.push` access throws. -/
def bucketPush (buckets : String → List String) (t bullet : String) :
    Except String (String → List String) :=
  if t ∈ canonicalTypes then
    .ok (fun u => if u == t then buckets u ++ [bullet] else buckets u)
  else .error "TypeError: Cannot read properties of undefined (reading push)"

/-- `typeOutputs[commitType].length` in the section-emission loop: for a
key outside the object literal the lookup yields `undefined` and the
`.length` access throws. -/
def bucketGet (buckets : String → List String) (t : String) : Except String (List String) :=
  if t ∈ canonicalTypes then .ok (buckets t)
  else .error "TypeError: Cannot read properties of undefined (reading length)"

/-- The inner `for (const commitType of includedTypes)` loop of the
bucketing pass in `filterChangeLog`. -/
def bucketLine (stripFlag : Bool) (majorReleaseCommitMessage logLine : String) :
    List String → (String → List String) → Except String (String → List String)
  | [], buckets => .ok buckets
  | t :: ts, buckets =>
    if jsIncludes logLine ("* " ++ t ++ ":")
        && !jsIncludes logLine ("* " ++ majorReleaseCommitMessage) then
      match bucketPush buckets t (if stripFlag then stripBullet t logLine else logLine) with
      | .error e => .error e
      | .ok buckets2 => bucketLine stripFlag majorReleaseCommitMessage logLine ts buckets2
    else bucketLine stripFlag majorReleaseCommitMessage logLine ts buckets

/-- The `changelog.split("\n").forEach(...)` bucketing pass of
`filterChangeLog`. -/
def bucketLines (stripFlag : Bool) (majorReleaseCommitMessage : String)
    (includedTypes : List String) :
    List String → (String → List String) → Except String (String → List String)
  | [], buckets => .ok buckets
  | line :: rest, buckets =>
    match bucketLine stripFlag majorReleaseCommitMessage line includedTypes buckets with
    | .error e => .error e
    | .ok buckets2 => bucketLines stripFlag majorReleaseCommitMessage includedTypes rest buckets2

/-- The section-emission loop of `filterChangeLog`: for each included
type with a non-empty bucket, push the section label, the bullets, and a
blank separator line. -/
def emitSections (sectionLabels : String → String) (buckets : String → List String) :
    List String → List String → Except String (List String)
  | [], output => .ok output
  | t :: ts, output =>
    match bucketGet buckets t with
    | .error e => .error e
    | .ok typeOutput =>
      emitSections sectionLabels buckets ts
        (if typeOutput.length > 0 then output ++ [sectionLabels t] ++ typeOutput ++ [""]
         else output)

/-- The advisory loop of `filterChangeLog`: one `core.warning` per
canonical key whose bucket is non-empty while the type is not in
`includedTypes`. -/
def classifyWarnings (includedTypes : List String) (buckets : String → List String) :
    List String :=
  (canonicalTypes.filter (fun t => !(buckets t).isEmpty && !includedTypes.contains t)).map
    (fun t => "There were commits for " ++ t ++ " but it is not included in \"includeTypes\"")

/-- `filterChangeLog` from `src/index.ts`: bucket the changelog lines by
included type (skipping major-marker lines, optionally stripping the
`type:` prefix), emit labeled sections in included-types order, and
compute the advisory warnings.  Returns the rendered changelog together
with the emitted warning messages, or the thrown `TypeError`. -/
def filterChangeLog (changelog : String) (stripFlag : Bool)
    (majorReleaseCommitMessage : String) (includedTypes : List String)
    (sectionLabels : String → String) : Except String (String × List String) :=
  match bucketLines stripFlag majorReleaseCommitMessage includedTypes
      (jsSplit changelog '\n') (fun _ => []) with
  | .error e => .error e
  | .ok typeOutputs =>
    match emitSections sectionLabels typeOutputs includedTypes [] with
    | .error e => .error e
    | .ok output => .ok (joinWith "\n" output, classifyWarnings includedTypes typeOutputs)

theorem bucketLine_ok (stripFlag : Bool) (mm line : String) :
    ∀ (ts : List String) (b : String → List String),
      (∀ t ∈ ts, t ∈ canonicalTypes) →
      ∃ b2, bucketLine stripFlag mm line ts b = .ok b2
  | [], b, _ => ⟨b, rfl⟩
  | t :: ts, b, h => by
    have hcan : t ∈ canonicalTypes := h t (List.mem_cons_self t ts)
    have hts : ∀ u ∈ ts, u ∈ canonicalTypes := fun u hu => h u (List.mem_cons_of_mem t hu)
    unfold bucketLine
    by_cases hc : (jsIncludes line ("* " ++ t ++ ":")
        && !jsIncludes line ("* " ++ mm)) = true
    · rw [if_pos hc]
      unfold bucketPush
      rw [if_pos hcan]
      exact bucketLine_ok stripFlag mm line ts _ hts
    · rw [if_neg hc]
      exact bucketLine_ok stripFlag mm line ts b hts

theorem bucketLines_ok (stripFlag : Bool) (mm : String) (it : List String)
    (hit : ∀ t ∈ it, t ∈ canonicalTypes) :
    ∀ (lines : List String) (b : String → List String),
      ∃ b2, bucketLines stripFlag mm it lines b = .ok b2
  | [], b => ⟨b, rfl⟩
  | line :: rest, b => by
    obtain ⟨b2, hb2⟩ := bucketLine_ok stripFlag mm line it b hit
    obtain ⟨b3, hb3⟩ := bucketLines_ok stripFlag mm it hit rest b2
    exact ⟨b3, by simp [bucketLines, hb2, hb3]⟩

theorem emitSections_ok (sectionLabels : String → String) (b : String → List String) :
    ∀ (ts : List String) (output : List String),
      (∀ t ∈ ts, t ∈ canonicalTypes) →
      ∃ o, emitSections sectionLabels b ts output = .ok o
  | [], output, _ => ⟨output, rfl⟩
  | t :: ts, output, h => by
    have hcan : t ∈ canonicalTypes := h t (List.mem_cons_self t ts)
    have hts : ∀ u ∈ ts, u ∈ canonicalTypes := fun u hu => h u (List.mem_cons_of_mem t hu)
    unfold emitSections bucketGet
    rw [if_pos hcan]
    exact emitSections_ok sectionLabels b ts _ hts

theorem emitSections_error_of_bad (sectionLabels : String → String)
    (b : String → List String) (name : String) (hbad : name ∉ canonicalTypes) :
    ∀ (ts : List String) (output : List String), name ∈ ts →
      ∃ e, emitSections sectionLabels b ts output = .error e
  | [], _, h => absurd h (List.not_mem_nil name)
  | t :: ts, output, h => by
    unfold emitSections bucketGet
    by_cases hct : t ∈ canonicalTypes
    · rw [if_pos hct]
      have hne : name ≠ t := fun he => hbad (he ▸ hct)
      have hmem : name ∈ ts := by
        rcases List.mem_cons.mp h with h1 | h2
        · exact absurd h1 hne
        · exact h2
      exact emitSections_error_of_bad sectionLabels b name hbad ts _ hmem
    · rw [if_neg hct]
      exact ⟨_, rfl⟩

/-- C10: `filterChangeLog` is total only over the canonical type
vocabulary.  If the included-types list contains a name outside the
canonical vocabulary and the changelog contains a matching `* <name>:`
line, the function throws (the bucket for that name is `undefined`);
when every included type is canonical, no error branch is reachable. -/
theorem c10_canonical_vocabulary_totality :
    (∀ (changelog : String) (stripFlag : Bool) (mm name : String)
        (it : List String) (sectionLabels : String → String),
        name ∈ it → name ∉ canonicalTypes →
        (∃ l ∈ jsSplit changelog '\n', jsIncludes l ("* " ++ name ++ ":") = true) →
        ∃ e, filterChangeLog changelog stripFlag mm it sectionLabels = .error e) ∧
    (∀ (changelog : String) (stripFlag : Bool) (mm : String)
        (it : List String) (sectionLabels : String → String),
        (∀ t ∈ it, t ∈ canonicalTypes) →
        ∃ r, filterChangeLog changelog stripFlag mm it sectionLabels = .ok r) := by
  constructor
  · intro changelog stripFlag mm name it sectionLabels hmem hbad _hline
    cases hb : bucketLines stripFlag mm it (jsSplit changelog '\n') (fun _ => []) with
    | error e => exact ⟨e, by simp [filterChangeLog, hb]⟩
    | ok b =>
      obtain ⟨e, he⟩ := emitSections_error_of_bad sectionLabels b name hbad it [] hmem
      exact ⟨e, by simp [filterChangeLog, hb, he]⟩
  · intro changelog stripFlag mm it sectionLabels hit
    obtain ⟨b, hb⟩ := bucketLines_ok stripFlag mm it hit (jsSplit changelog '\n') (fun _ => [])
    obtain ⟨o, ho⟩ := emitSections_ok sectionLabels b it [] hit
    exact ⟨(joinWith "\n" o, classifyWarnings it b), by simp [filterChangeLog, hb, ho]⟩

/-- C10 witness: with the non-canonical included type `chore` and a
matching line the function throws, while an all-canonical configuration
succeeds. -/
theorem c10_canonical_vocabulary_totality_witness :
    (∃ e, filterChangeLog "* chore: tidy" true "major release" ["chore"]
        (fun _ => "") = .error e) ∧
    (∃ r, filterChangeLog "* chore: tidy" true "major release" ["feat", "fix"]
        (fun _ => "") = .ok r) :=
  ⟨c10_canonical_vocabulary_totality.1 "* chore: tidy" true "major release" "chore"
      ["chore"] (fun _ => "") (by decide) (by decide)
      ⟨"* chore: tidy", by decide, by decide⟩,
   c10_canonical_vocabulary_totality.2 "* chore: tidy" true "major release"
      ["feat", "fix"] (fun _ => "") (by decide)⟩

/-- C6: with prefix stripping enabled, the bullet rendered for a
bucketed line of the shape `* <type>: <description>` is exactly
`* <description>` (the leading `* <type>: ` is removed and a bare `* `
marker re-added); in particular `* fix: correct overflow` renders as
`* correct overflow`. -/
theorem c6_strip_rendered_bullet :
    (∀ (commitType description : String),
      stripBullet commitType ("* " ++ commitType ++ ": " ++ description)
        = "* " ++ description) ∧
    filterChangeLog "* fix: correct overflow" true "a major release" ["fix"]
        (fun t => if t == "fix" then "### Bug Fixes" else "")
      = .ok ("### Bug Fixes\n* correct overflow\n", []) := by
  constructor
  · intro t d
    unfold stripBullet
    have hdata : ("* " ++ t ++ ": " ++ d).data
        = ('*' :: ' ' :: (t.data ++ [':'])) ++ (' ' :: d.data) := by
      simp [String.data_append]
    have hlen : ('*' :: ' ' :: (t.data ++ [':'])).length = t.length + 3 := by
      have h0 : t.length = t.data.length := rfl
      rw [h0]
      simp [List.length_append]
    have hdrop : jsDrop ("* " ++ t ++ ": " ++ d) (t.length + 3)
        = String.mk (' ' :: d.data) := by
      unfold jsDrop
      rw [hdata, ← hlen, List.drop_left]
    rw [hdrop]
    have hstarts : jsStartsWith (String.mk (' ' :: d.data)) " " = true := by
      simp [jsStartsWith, List.isPrefixOf]
    simp only [hstarts, if_true]
    rfl
  · rfl

theorem bucketLine_outside (stripFlag : Bool) (mm line : String) :
    ∀ (ts : List String) (b b2 : String → List String),
      bucketLine stripFlag mm line ts b = .ok b2 → ∀ u, u ∉ ts → b2 u = b u
  | [], b, b2, h, u, _ => by
    simp [bucketLine] at h
    rw [← h]
  | t :: ts, b, b2, h, u, hu => by
    have hune : u ≠ t := fun he => hu (he ▸ List.mem_cons_self t ts)
    have huts : u ∉ ts := fun hm => hu (List.mem_cons_of_mem t hm)
    unfold bucketLine at h
    by_cases hc : (jsIncludes line ("* " ++ t ++ ":")
        && !jsIncludes line ("* " ++ mm)) = true
    · rw [if_pos hc] at h
      unfold bucketPush at h
      by_cases hcan : t ∈ canonicalTypes
      · rw [if_pos hcan] at h
        have hrec := bucketLine_outside stripFlag mm line ts _ b2 h u huts
        rw [hrec]
        simp [hune]
      · rw [if_neg hcan] at h
        simp at h
    · rw [if_neg hc] at h
      exact bucketLine_outside stripFlag mm line ts b b2 h u huts

theorem bucketLines_outside (stripFlag : Bool) (mm : String) (it : List String) :
    ∀ (lines : List String) (b b2 : String → List String),
      bucketLines stripFlag mm it lines b = .ok b2 → ∀ u, u ∉ it → b2 u = b u
  | [], b, b2, h, u, _ => by
    simp [bucketLines] at h
    rw [← h]
  | line :: rest, b, b2, h, u, hu => by
    unfold bucketLines at h
    cases hbl : bucketLine stripFlag mm line it b with
    | error e => rw [hbl] at h; simp at h
    | ok bmid =>
      rw [hbl] at h
      rw [bucketLines_outside stripFlag mm it rest bmid b2 h u hu]
      exact bucketLine_outside stripFlag mm line it b bmid hbl u hu

/-- The advisory loop of `filterChangeLog` is dead code: the buckets are
only ever filled for types in `includedTypes`, so no canonical type can
simultaneously have a non-empty bucket and be excluded — `core.warning`
is never called, for any input. -/
theorem advisory_warnings_never_emitted (stripFlag : Bool) (mm : String)
    (it : List String) (changelog : String) (b : String → List String)
    (hb : bucketLines stripFlag mm it (jsSplit changelog '\n') (fun _ => []) = .ok b) :
    classifyWarnings it b = [] := by
  have hout : ∀ u, u ∉ it → b u = [] := fun u hu =>
    bucketLines_outside stripFlag mm it (jsSplit changelog '\n') _ b hb u hu
  unfold classifyWarnings
  rw [List.filter_eq_nil_iff.mpr ?_]
  · rfl
  · intro t _ht
    by_cases hti : t ∈ it
    · simp [List.elem_iff, hti]
    · simp [hout t hti]

/-- C7 evaluation at the failing input: a changelog observing the
canonical type `docs` while only `feat` is included produces NO advisory
warning (the claim and spec say one must be surfaced); the run simply
continues with an empty warning list. -/
theorem c7_no_advisory_for_excluded_type :
    filterChangeLog "* docs: update readme" false "major release" ["feat"]
      (fun _ => "") = .ok ("", []) := rfl

/-- Observable side effects of a run: logging (`core.info`,
`core.warning`, `core.setFailed`), git operations, version-file writes,
action outputs and the job summary. -/
inductive Event where
  | info (msg : String)
  | warning (msg : String)
  | setFailed (msg : String)
  | gitPull
  | gitConfig (key value : String)
  | gitAdd (arg : String)
  | gitCommit (msg : String)
  | gitCreateTag (tag : String)
  | gitPush (branch : String)
  | writeFile (path contents : String)
  | setOutput (key value : String)
  | summary (heading body : String)
deriving DecidableEq

/-- Parsed JSON/YAML documents (the values produced by `JSON.parse` /
`YAML.parse`): null, booleans, integer numbers, strings, arrays and
objects with insertion-ordered fields. -/
inductive Json where
  | null
  | bool (b : Bool)
  | num (n : Int)
  | str (s : String)
  | arr (elems : List Json)
  | obj (fields : List (String × Json))

/-- A JavaScript value during property walking: a document value or
`undefined` (the result of looking up an absent key). -/
inductive JsVal where
  | undefinedVal
  | val (j : Json)

/-- JavaScript `typeof`. -/
def jsTypeOf : JsVal → String
  | .undefinedVal => "undefined"
  | .val .null => "object"
  | .val (.bool _) => "boolean"
  | .val (.num _) => "number"
  | .val (.str _) => "string"
  | .val (.arr _) => "object"
  | .val (.obj _) => "object"

/-- First-match lookup of an object field. -/
def lookupField : List (String × Json) → String → Option Json
  | [], _ => none
  | (k', v') :: rest, k => if k' == k then some v' else lookupField rest k

/-- JavaScript property assignment on an object: an existing key keeps
its position and is updated, a new key is appended. -/
def setField : List (String × Json) → String → Json → List (String × Json)
  | [], k, v => [(k, v)]
  | (k', v') :: rest, k, v =>
    if k' == k then (k', v) :: rest else (k', v') :: setField rest k v

/-- JavaScript property read `parent[key]`: reading a property of
`undefined` or `null` throws a `TypeError`; an object yields the field
value or `undefined`; other primitives yield `undefined` (we do not
model built-in properties such as `length`). -/
def jsGetProp : JsVal → String → Except String JsVal
  | .undefinedVal, _ => .error "TypeError: Cannot read properties of undefined"
  | .val .null, _ => .error "TypeError: Cannot read properties of null"
  | .val (.obj fields), k =>
    .ok (match lookupField fields k with
      | some v => .val v
      | none => .undefinedVal)
  | .val _, _ => .ok .undefinedVal

/-- The walk of `walkJsonToVersion`: traverse all but the last step to
reach the parent, then read the last property.  Continuing a walk from
an `undefined` intermediate throws at the next access, exactly as the
source loop does.  An empty step list reads `steps[-1]`, which is
`undefined` and is coerced to the key `"undefined"`. -/
def readLeaf : Json → List String → Except String JsVal
  | doc, [] => jsGetProp (.val doc) "undefined"
  | doc, [last] => jsGetProp (.val doc) last
  | doc, step :: rest =>
    match jsGetProp (.val doc) step with
    | .error e => .error e
    | .ok .undefinedVal => .error "TypeError: Cannot read properties of undefined"
    | .ok (.val child) => readLeaf child rest

/-- The `core.setFailed` message reported for a non-string leaf. -/
def expectedVersionMsg (lastProperty typeName : String) : String :=
  "Expected version property \"" ++ lastProperty ++
    "\" to be of type \"string\" but was of type \"" ++ typeName ++ "\"."

/-- `walkJsonToVersion` from `src/index.ts`: deep-copy (identity on
trees), walk to the leaf, report a `core.setFailed` event when the leaf
is not a string (the function still returns the leaf and the run
continues), or propagate a thrown `TypeError`. -/
def walkJsonToVersion (json : Json) (steps : List String) :
    Except String (JsVal × List Event) :=
  match readLeaf json steps with
  | .error e => .error e
  | .ok leaf =>
    if jsTypeOf leaf != "string" then
      .ok (leaf, [.setFailed (expectedVersionMsg (steps.getLastD "undefined") (jsTypeOf leaf))])
    else .ok (leaf, [])

/-- `walkAndSetVersion` from `src/index.ts`: walk to the parent of the
last step, report (non-fatally) when the existing leaf is not a string,
then assign the new version.  Assignment to a property of a
non-object throws (strict mode); walking through an absent intermediate
throws at the next access.  Returns the updated document and whether
the non-string report fired. -/
def walkAndSetVersion : Json → List String → String → Except String (Json × Bool)
  | doc, [], newVersion =>
    (match jsGetProp (.val doc) "undefined" with
    | .error e => .error e
    | .ok leaf =>
      match doc with
      | .obj fields => .ok (.obj (setField fields "undefined" (.str newVersion)),
          jsTypeOf leaf != "string")
      | _ => .error "TypeError: Cannot create property")
  | doc, [last], newVersion =>
    (match jsGetProp (.val doc) last with
    | .error e => .error e
    | .ok leaf =>
      match doc with
      | .obj fields => .ok (.obj (setField fields last (.str newVersion)),
          jsTypeOf leaf != "string")
      | _ => .error "TypeError: Cannot create property")
  | doc, step :: rest, newVersion =>
    match jsGetProp (.val doc) step with
    | .error e => .error e
    | .ok .undefinedVal => .error "TypeError: Cannot read properties of undefined"
    | .ok (.val child) =>
      match walkAndSetVersion child rest newVersion with
      | .error e => .error e
      | .ok (child2, reported) =>
        match doc with
        | .obj fields => .ok (.obj (setField fields step child2), reported)
        | _ => .error "TypeError: Cannot create property"

/-- `versionFilePath.substring(versionFilePath.lastIndexOf(".") + 1)`:
the text after the last dot, or the whole string when there is no dot
(`lastIndexOf` returns `-1`). -/
def jsExtension (s : String) : String :=
  String.mk ((s.data.reverse.takeWhile (fun c => c != '.')).reverse)

/-- `tomlPropRegex` from `src/index.ts`: note the result is a plain
STRING of the shape `/prop = "(.*)"/` — when passed to `String.match`
it is converted to a RegExp in which the two slashes are literal
characters to match, not delimiters. -/
def tomlPropRegex (propertyName : String) : String :=
  "/" ++ propertyName ++ " = \"(.*)\"/"

/-- Greedy capture for `(.*)` followed by the literal suffix: the
longest newline-free prefix of `rest` that is followed by `suf`. -/
def tomlCaptureAt (rest suf : List Char) : Option (List Char) :=
  (List.range (rest.length + 1)).reverse.findSome? (fun n =>
    let t := rest.take n
    if t.all (fun c => c != '\n') && List.isPrefixOf suf (rest.drop n) then some t
    else none)

/-- Scan of the regex engine: try each start position in order. -/
def tomlSearch (pre suf : List Char) : List Char → Option (List Char)
  | [] => none
  | x :: rest =>
    if List.isPrefixOf pre (x :: rest) then
      match tomlCaptureAt ((x :: rest).drop pre.length) suf with
      | some t => some t
      | none => tomlSearch pre suf rest
    else tomlSearch pre suf rest

/-- `s.match(tomlPropRegex(prop))`, capture group 1: the pattern string
becomes the RegExp `/prop = "(.*)"/` with LITERAL slashes, so a match
requires the text `/prop = "…"/` (slashes included) to occur in `s`;
the group is the greedy newline-free capture. -/
def tomlRegexMatch (propertyName s : String) : Option String :=
  (tomlSearch ("/" ++ propertyName ++ " = \"").data ("\"/").data s.data).map String.mk

/-- JSON string escaping (quotes, backslashes, newlines). -/
def jsonEscapeChar (c : Char) : List Char :=
  if c = '"' then ['\\', '"']
  else if c = '\\' then ['\\', '\\']
  else if c = '\n' then ['\\', 'n']
  else [c]

/-- A JSON-quoted string literal. -/
def jsonQuote (s : String) : String :=
  "\"" ++ String.mk (s.data.foldr (fun c acc => jsonEscapeChar c ++ acc) []) ++ "\""

/-- `depth` levels of 2-space indentation. -/
def indentOf (depth : Nat) : String :=
  String.mk (List.replicate (2 * depth) ' ')

mutual

/-- `JSON.stringify(value, null, 2)` at nesting depth `depth`. -/
def stringifyVal (depth : Nat) : Json → String
  | .null => "null"
  | .bool b => if b then "true" else "false"
  | .num n => toString n
  | .str s => jsonQuote s
  | .arr [] => "[]"
  | .arr (x :: xs) =>
    "[\n" ++ stringifyItems (depth + 1) (x :: xs) ++ "\n" ++ indentOf depth ++ "]"
  | .obj [] => "\x7b\x7d"
  | .obj (f :: fs) =>
    "\x7b\n" ++ stringifyFields (depth + 1) (f :: fs) ++ "\n" ++ indentOf depth ++ "\x7d"

/-- Comma-and-newline separated array items. -/
def stringifyItems (depth : Nat) : List Json → String
  | [] => ""
  | [x] => indentOf depth ++ stringifyVal depth x
  | x :: y :: xs =>
    indentOf depth ++ stringifyVal depth x ++ ",\n" ++ stringifyItems depth (y :: xs)

/-- Comma-and-newline separated object fields. -/
def stringifyFields (depth : Nat) : List (String × Json) → String
  | [] => ""
  | [(k, v)] => indentOf depth ++ jsonQuote k ++ ": " ++ stringifyVal depth v
  | (k, v) :: f :: fs =>
    indentOf depth ++ jsonQuote k ++ ": " ++ stringifyVal depth v ++ ",\n" ++
      stringifyFields depth (f :: fs)

end

/-- `JSON.stringify(versionData, null, 2)`. -/
def jsonStringify2 (j : Json) : String := stringifyVal 0 j

/-- The in-memory version data carried between `getVersionFromFile` and
`updateVersionFile`: a parsed document (json/yaml) or the raw file text
(toml). -/
inductive VersionData where
  | jsonDoc (j : Json)
  | tomlStr (s : String)

/-- `updateVersionFile` from `src/index.ts`.  Returns the updated
in-memory version data together with the bytes written to the version
file (`none` when no branch writes).  For `json`/`yaml` the document is
walked and re-serialized; for `toml` the code extracts the old version
via the (broken) regex, calls `String.replace` but DISCARDS its result
(strings are immutable), and writes the ORIGINAL text back.  The
`yamlStringify` parameter is the external YAML serializer. -/
def updateVersionFile (versionFilePath : String) (versionData : VersionData)
    (steps : List String) (newVersion : String) (yamlStringify : Json → String) :
    Except String (VersionData × Option String) :=
  let extension := jsExtension versionFilePath
  if extension == "json" then
    match versionData with
    | .jsonDoc j =>
      match walkAndSetVersion j steps newVersion with
      | .error e => .error e
      | .ok (j2, _reported) => .ok (.jsonDoc j2, some (jsonStringify2 j2))
    | .tomlStr _ => .error "model: version data for a json file was not a document"
  else if extension == "toml" then
    match versionData with
    | .tomlStr s =>
      match tomlRegexMatch (steps.getD 0 "undefined") s with
      | none => .error "TypeError: Cannot read properties of null (reading 1)"
      | some oldVersion =>
        let _discarded := jsReplace s oldVersion newVersion
        .ok (.tomlStr s, some s)
    | .jsonDoc _ => .error "model: version data for a toml file was not a string"
  else if extension == "yaml" || extension == "yml" then
    match versionData with
    | .jsonDoc j =>
      match walkAndSetVersion j steps newVersion with
      | .error e => .error e
      | .ok (j2, _reported) => .ok (.jsonDoc j2, some (yamlStringify j2))
    | .tomlStr _ => .error "model: version data for a yaml file was not a document"
  else .ok (versionData, none)

theorem lookupField_setField_self (k : String) (v : Json) :
    ∀ fs : List (String × Json), lookupField (setField fs k v) k = some v
  | [] => by simp [setField, lookupField]
  | (k', v') :: rest => by
    by_cases h : (k' == k) = true <;>
      simp [setField, lookupField, h, lookupField_setField_self k v rest]

theorem setField_setField_self (k : String) (v : Json) :
    ∀ fs : List (String × Json), setField (setField fs k v) k v = setField fs k v
  | [] => by simp [setField]
  | (k', v') :: rest => by
    by_cases h : (k' == k) = true <;>
      simp [setField, h, setField_setField_self k v rest]

theorem setThenRead : ∀ (doc : Json) (steps : List String) (v : String)
    (doc2 : Json) (rep : Bool),
    walkAndSetVersion doc steps v = .ok (doc2, rep) →
    readLeaf doc2 steps = .ok (.val (.str v))
  | doc, [], v, doc2, rep, h => by
    unfold walkAndSetVersion at h
    cases hg : jsGetProp (.val doc) "undefined" with
    | error e => rw [hg] at h; simp at h
    | ok leaf =>
      rw [hg] at h
      cases doc <;> simp at h
      obtain ⟨h1, _h2⟩ := h
      rw [← h1]
      simp [readLeaf, jsGetProp, lookupField_setField_self]
  | doc, [last], v, doc2, rep, h => by
    unfold walkAndSetVersion at h
    cases hg : jsGetProp (.val doc) last with
    | error e => rw [hg] at h; simp at h
    | ok leaf =>
      rw [hg] at h
      cases doc <;> simp at h
      obtain ⟨h1, _h2⟩ := h
      rw [← h1]
      simp [readLeaf, jsGetProp, lookupField_setField_self]
  | doc, step :: next :: rest, v, doc2, rep, h => by
    unfold walkAndSetVersion at h
    cases hg : jsGetProp (.val doc) step with
    | error e => rw [hg] at h; simp at h
    | ok child =>
      rw [hg] at h
      cases child with
      | undefinedVal => simp at h
      | val cj =>
        dsimp only at h
        cases hrec : walkAndSetVersion cj (next :: rest) v with
        | error e => rw [hrec] at h; simp at h
        | ok pr =>
          obtain ⟨child2, rep2⟩ := pr
          rw [hrec] at h
          cases doc <;> simp at h
          obtain ⟨h1, _h2⟩ := h
          rw [← h1]
          have hr := setThenRead cj (next :: rest) v child2 rep2 hrec
          simp [readLeaf, jsGetProp, lookupField_setField_self, hr]

theorem setTwice : ∀ (doc : Json) (steps : List String) (v : String)
    (doc2 : Json) (rep : Bool),
    walkAndSetVersion doc steps v = .ok (doc2, rep) →
    walkAndSetVersion doc2 steps v = .ok (doc2, false)
  | doc, [], v, doc2, rep, h => by
    unfold walkAndSetVersion at h
    cases hg : jsGetProp (.val doc) "undefined" with
    | error e => rw [hg] at h; simp at h
    | ok leaf =>
      rw [hg] at h
      cases doc <;> simp at h
      obtain ⟨h1, _h2⟩ := h
      rw [← h1]
      unfold walkAndSetVersion
      simp [jsGetProp, lookupField_setField_self, jsTypeOf, setField_setField_self]
  | doc, [last], v, doc2, rep, h => by
    unfold walkAndSetVersion at h
    cases hg : jsGetProp (.val doc) last with
    | error e => rw [hg] at h; simp at h
    | ok leaf =>
      rw [hg] at h
      cases doc <;> simp at h
      obtain ⟨h1, _h2⟩ := h
      rw [← h1]
      unfold walkAndSetVersion
      simp [jsGetProp, lookupField_setField_self, jsTypeOf, setField_setField_self]
  | doc, step :: next :: rest, v, doc2, rep, h => by
    unfold walkAndSetVersion at h
    cases hg : jsGetProp (.val doc) step with
    | error e => rw [hg] at h; simp at h
    | ok child =>
      rw [hg] at h
      cases child with
      | undefinedVal => simp at h
      | val cj =>
        dsimp only at h
        cases hrec : walkAndSetVersion cj (next :: rest) v with
        | error e => rw [hrec] at h; simp at h
        | ok pr =>
          obtain ⟨child2, rep2⟩ := pr
          rw [hrec] at h
          cases doc <;> simp at h
          obtain ⟨h1, _h2⟩ := h
          rw [← h1]
          have hr := setTwice cj (next :: rest) v child2 rep2 hrec
          unfold walkAndSetVersion
          simp [jsGetProp, lookupField_setField_self, hr, setField_setField_self]

/-- C9 counterexample: for the flat-text (toml) format the claim fails —
`updateVersionFile` matches the old version, but the result of
`String.replace` is discarded and the ORIGINAL document bytes are
written back, so the produced document is not the old-version-replaced
document. -/
theorem c9_toml_counterexample :
    (updateVersionFile "Cargo.toml" (.tomlStr "x /version = \"1.0.0\"/ y")
        ["version"] "2.0.0" (fun _ => "")
      = .ok (.tomlStr "x /version = \"1.0.0\"/ y", some "x /version = \"1.0.0\"/ y")) ∧
    jsReplace "x /version = \"1.0.0\"/ y" "1.0.0" "2.0.0" ≠ "x /version = \"1.0.0\"/ y" := by
  exact ⟨rfl, by decide⟩

/-- C9 amended: `updateVersionFile` is idempotent for all three formats
(under a successful first application), and the mapping formats
(json/yaml) really persist the new version — the document is
re-serialized with the leaf set to the new version (witnessed by the
program's own read walk) — but the flat-text (toml) format does NOT
replace anything: it writes the original document bytes unchanged. -/
theorem c9_update_idempotent_and_persists :
    (∀ (p : String) (doc : Json) (steps : List String) (v : String)
        (ys : Json → String) (d2 : VersionData) (w : Option String),
        jsExtension p = "json" →
        updateVersionFile p (.jsonDoc doc) steps v ys = .ok (d2, w) →
        updateVersionFile p d2 steps v ys = .ok (d2, w) ∧
        ∃ doc2, d2 = .jsonDoc doc2 ∧ w = some (jsonStringify2 doc2) ∧
          walkJsonToVersion doc2 steps = .ok (.val (.str v), [])) ∧
    (∀ (p : String) (doc : Json) (steps : List String) (v : String)
        (ys : Json → String) (d2 : VersionData) (w : Option String),
        (jsExtension p = "yaml" ∨ jsExtension p = "yml") →
        updateVersionFile p (.jsonDoc doc) steps v ys = .ok (d2, w) →
        updateVersionFile p d2 steps v ys = .ok (d2, w) ∧
        ∃ doc2, d2 = .jsonDoc doc2 ∧ w = some (ys doc2) ∧
          walkJsonToVersion doc2 steps = .ok (.val (.str v), [])) ∧
    (∀ (p s : String) (steps : List String) (v : String)
        (ys : Json → String) (d2 : VersionData) (w : Option String),
        jsExtension p = "toml" →
        updateVersionFile p (.tomlStr s) steps v ys = .ok (d2, w) →
        updateVersionFile p d2 steps v ys = .ok (d2, w) ∧
        d2 = .tomlStr s ∧ w = some s) := by
  refine ⟨?_, ?_, ?_⟩
  · intro p doc steps v ys d2 w hext hupd
    simp only [updateVersionFile, hext] at hupd
    simp at hupd
    cases hws : walkAndSetVersion doc steps v with
    | error e => rw [hws] at hupd; simp at hupd
    | ok pr =>
      obtain ⟨j2, rep⟩ := pr
      rw [hws] at hupd
      simp at hupd
      obtain ⟨h1, h2⟩ := hupd
      subst h1
      subst h2
      have hset := setTwice doc steps v j2 rep hws
      have hread := setThenRead doc steps v j2 rep hws
      constructor
      · simp only [updateVersionFile, hext]
        simp [hset]
      · exact ⟨j2, rfl, rfl, by simp [walkJsonToVersion, hread, jsTypeOf]⟩
  · intro p doc steps v ys d2 w hext hupd
    have hnej : jsExtension p ≠ "json" := by
      rcases hext with h | h <;> (rw [h]; decide)
    have hnet : jsExtension p ≠ "toml" := by
      rcases hext with h | h <;> (rw [h]; decide)
    have hyy : (jsExtension p == "yaml" || jsExtension p == "yml") = true := by
      rcases hext with h | h <;> simp [h]
    simp only [updateVersionFile] at hupd ⊢
    rw [if_neg (by simpa using hnej), if_neg (by simpa using hnet), if_pos hyy] at hupd
    rw [if_neg (by simpa using hnej), if_neg (by simpa using hnet), if_pos hyy]
    cases hws : walkAndSetVersion doc steps v with
    | error e => rw [hws] at hupd; simp at hupd
    | ok pr =>
      obtain ⟨j2, rep⟩ := pr
      rw [hws] at hupd
      simp at hupd
      obtain ⟨h1, h2⟩ := hupd
      subst h1
      subst h2
      have hset := setTwice doc steps v j2 rep hws
      have hread := setThenRead doc steps v j2 rep hws
      constructor
      · simp [hset]
      · exact ⟨j2, rfl, rfl, by simp [walkJsonToVersion, hread, jsTypeOf]⟩
  · intro p s steps v ys d2 w hext hupd
    simp only [updateVersionFile, hext] at hupd ⊢
    simp at hupd ⊢
    cases hm : tomlRegexMatch (steps[0]?.getD "undefined") s with
    | none => rw [hm] at hupd; simp at hupd
    | some oldv =>
      rw [hm] at hupd
      simp at hupd
      obtain ⟨h1, h2⟩ := hupd
      subst h1
      subst h2
      refine ⟨?_, rfl, rfl⟩
      dsimp only
      rw [hm]

/-- C9 amended witness: a concrete second application over `p.json`
writes the identical document again. -/
theorem c9_update_idempotent_and_persists_witness :
    updateVersionFile "p.json" (.jsonDoc (.obj [("version", .str "1.1.0")]))
        ["version"] "1.1.0" (fun _ => "")
      = .ok (.jsonDoc (.obj [("version", .str "1.1.0")]),
          some (jsonStringify2 (.obj [("version", .str "1.1.0")]))) := by
  have h1 : updateVersionFile "p.json" (.jsonDoc (.obj [("version", .str "1.0.0")]))
      ["version"] "1.1.0" (fun _ => "")
      = .ok (.jsonDoc (.obj [("version", .str "1.1.0")]),
          some (jsonStringify2 (.obj [("version", .str "1.1.0")]))) := rfl
  exact (c9_update_idempotent_and_persists.1 "p.json" (.obj [("version", .str "1.0.0")])
    ["version"] "1.1.0" (fun _ => "") _ _ rfl h1).1

/-- `core.getBooleanInput`: accepts the YAML 1.2 core-schema booleans,
throws otherwise. -/
def jsGetBooleanInput (s : String) : Except String Bool :=
  if s = "true" ∨ s = "True" ∨ s = "TRUE" then .ok true
  else if s = "false" ∨ s = "False" ∨ s = "FALSE" then .ok false
  else .error "TypeError: Input does not meet YAML 1.2 Core Schema specification"

/-- `JSON.stringify` of an array of strings (for the steps log line). -/
def jsonStringifyList (l : List String) : String :=
  "[" ++ joinWith "," (l.map jsonQuote) ++ "]"

/-- `getVersionFromFile` from `src/index.ts`, parameterised by the file
contents and the external parsers.  Returns the non-fatal events emitted
(`core.info`, `core.setFailed` reports) and either the thrown error or
the `[versionData, version]` pair.  Note the missing `break` in the
`toml` case of the source: when the regex does not match, after the
`core.setFailed` report control FALLS THROUGH into the yaml case. -/
def getVersionFromFile (fileContents : String)
    (jsonParse yamlParse : String → Except String Json)
    (versionFilePath : String) (steps : List String) :
    List Event × Except String (VersionData × JsVal) :=
  let infoEv := Event.info ("version path steps: " ++ jsonStringifyList steps)
  let extension := jsExtension versionFilePath
  if extension == "json" then
    match jsonParse fileContents with
    | .error e => ([infoEv], .error e)
    | .ok doc =>
      match walkJsonToVersion doc steps with
      | .error e => ([infoEv], .error e)
      | .ok (leaf, evs) => ([infoEv] ++ evs, .ok (.jsonDoc doc, leaf))
  else if extension == "toml" then
    match tomlRegexMatch (steps.getD 0 "undefined") fileContents with
    | some version => ([infoEv], .ok (.tomlStr fileContents, .val (.str version)))
    | none =>
      let failEv := Event.setFailed ("Expected version property \"" ++
        steps.getD 0 "undefined" ++ "\" to match regex \"" ++
        tomlPropRegex (steps.getD 0 "undefined") ++ "\" but it did not.")
      match yamlParse fileContents with
      | .error e => ([infoEv, failEv], .error e)
      | .ok doc =>
        match walkJsonToVersion doc steps with
        | .error e => ([infoEv, failEv], .error e)
        | .ok (leaf, evs) => ([infoEv, failEv] ++ evs, .ok (.jsonDoc doc, leaf))
  else if extension == "yaml" || extension == "yml" then
    match yamlParse fileContents with
    | .error e => ([infoEv], .error e)
    | .ok doc =>
      match walkJsonToVersion doc steps with
      | .error e => ([infoEv], .error e)
      | .ok (leaf, evs) => ([infoEv] ++ evs, .ok (.jsonDoc doc, leaf))
  else
    ([infoEv, Event.setFailed ("Expected version file \"" ++ versionFilePath ++
        "\" to end with \".json\", \".toml\", \".yaml\", or \".yml\", but it ended with \"." ++
        extension ++ "\".")],
      .ok (.jsonDoc .null, .val (.str "")))

/-- The external world of one action run: the configured inputs, the
version file contents, the changelog produced by the commit-history
provider, and the external JSON/YAML library functions.  Git operations
are modelled as succeeding (they are recorded as trace events). -/
structure RunWorld where
  inputs : String → String
  fileContents : String
  changelog : String
  jsonParse : String → Except String Json
  yamlParse : String → Except String Json
  yamlStringify : Json → String

/-- The `core.info` prologue of `run` (lines 274-285 of the source),
ending with the `git pull`. -/
def runPreEvents (w : RunWorld) : List Event :=
  let gitCommitMessage := w.inputs "git-message" ++ " [skip ci]"
  let gitBranch := jsReplace (w.inputs "git-branch") "refs/heads/" ""
  let tagPre := w.inputs "tag-prefix"
  let currentVersion := w.inputs "current-version"
  let isVersionFile := jsStartsWith currentVersion "./"
  [Event.info "Using \"angular\" preset",
   .info ("Using \"" ++ gitCommitMessage ++ "\" as commit message"),
   .info ("Using \"" ++ w.inputs "git-user-name" ++ "\" as git user.name"),
   .info ("Using \"" ++ w.inputs "git-user-email" ++ "\" as git user.email")] ++
  (if isVersionFile then [Event.info ("Using \"" ++ currentVersion ++ "\" as version file")]
   else []) ++
  [.info ("Using \"" ++ tagPre ++ "\" as tag prefix"),
   .info ("Using \"" ++ gitBranch ++ "\" as gitBranch"),
   .info "Pull to make sure we have the full git history",
   .gitPull]

/-- The continuation of `run` after the version has been read: version
guess, changelog generation, version calculation, rendering, optional
version-file update, then the git side effects, outputs and summary.  A
non-string `oldVersion` throws at `oldVersion.substring`. -/
def runTail (w : RunWorld) (stripFlag : Bool) (readEvents : List Event)
    (versionFileContents : VersionData) (oldVersionVal : JsVal) : List Event :=
  match oldVersionVal with
  | .val (.str oldVersion) =>
    let currentVersion := w.inputs "current-version"
    let isVersionFile := jsStartsWith currentVersion "./"
    let gitCommitMessage := w.inputs "git-message" ++ " [skip ci]"
    let gitBranch := jsReplace (w.inputs "git-branch") "refs/heads/" ""
    let tagPre := w.inputs "tag-prefix"
    let versionPropertyPath := jsSplit (w.inputs "version-path") '.'
    let majorReleaseCommitMessage := w.inputs "major-release-commit-message"
    let includedTypes := jsSplit (w.inputs "included-types") ','
    let minorCommitTypes := jsSplit (w.inputs "minor-commit-types") ','
    let patchCommitTypes := jsSplit (w.inputs "patch-commit-types") ','
    let minorVersionBumpInterval := jsParseInt (w.inputs "minor-version-bump-interval")
    let patchVersionBumpInterval := jsParseInt (w.inputs "patch-version-bump-interval")
    let sectionLabels := fun t => w.inputs (t ++ "-section-label")
    let _newVersionGuess :=
      jsNumToString (jsNumAdd (jsParseInt (jsTake1 oldVersion)) (.int 1)) ++ jsDrop oldVersion 1
    let dirtyChangelog := w.changelog
    let newVersion := calcTrueNewVersionFromLog oldVersion dirtyChangelog
      majorReleaseCommitMessage minorCommitTypes patchCommitTypes includedTypes
      minorVersionBumpInterval patchVersionBumpInterval
    match filterChangeLog dirtyChangelog stripFlag majorReleaseCommitMessage
        includedTypes sectionLabels with
    | .error e => runPreEvents w ++ readEvents ++ [.setFailed e]
    | .ok (stringChangelog, warns) =>
      let gitTag := tagPre ++ newVersion
      let calcEvents := warns.map Event.warning ++
        [Event.info ("Calculated version: \"" ++ newVersion ++ "\""),
         .info ("Calculated tag: \"" ++ gitTag ++ "\"")]
      let updResult :=
        if isVersionFile then
          match updateVersionFile currentVersion versionFileContents versionPropertyPath
              newVersion w.yamlStringify with
          | .error e =>
            ([Event.info ("Bumping version file \"" ++ currentVersion ++ "\"")],
              Except.error e)
          | .ok (_, some written) =>
            ([Event.info ("Bumping version file \"" ++ currentVersion ++ "\""),
              Event.writeFile currentVersion written], Except.ok ())
          | .ok (_, none) =>
            ([Event.info ("Bumping version file \"" ++ currentVersion ++ "\"")],
              Except.ok ())
        else ([], Except.ok ())
      match updResult with
      | (updEvents, .error e) =>
        runPreEvents w ++ readEvents ++ calcEvents ++ updEvents ++ [.setFailed e]
      | (updEvents, .ok ()) =>
        let cleanChangelog := jsTrim stringChangelog
        runPreEvents w ++ readEvents ++ calcEvents ++ updEvents ++
        [.info "Changelog generated",
         .info cleanChangelog,
         .info ("New version: " ++ newVersion),
         .gitConfig "user.email" (w.inputs "git-user-email"),
         .gitConfig "user.name" (w.inputs "git-user-name"),
         .gitAdd ".",
         .gitCommit (jsReplace gitCommitMessage "\x7bversion\x7d" gitTag),
         .gitCreateTag gitTag,
         .info "Push all changes",
         .gitPush gitBranch,
         .setOutput "changelog" cleanChangelog,
         .setOutput "version" newVersion,
         .setOutput "tag" gitTag,
         .setOutput "skipped" "false",
         .summary gitTag cleanChangelog]
  | _ =>
    runPreEvents w ++ readEvents ++
      [.setFailed "TypeError: oldVersion.substring is not a function"]

/-- The `run` entry point of `src/index.ts`, as an event-trace function:
read the inputs (the boolean input can throw), log the prologue, pull,
resolve the current version (literal or from the version file), and
continue with `runTail`; any thrown error is caught by the surrounding
`try` and reported via `core.setFailed`. -/
def run (w : RunWorld) : List Event :=
  match jsGetBooleanInput (w.inputs "strip-commit-prefix") with
  | .error e => [.setFailed e]
  | .ok stripFlag =>
    let currentVersion := w.inputs "current-version"
    let isVersionFile := jsStartsWith currentVersion "./"
    match (if isVersionFile then
            getVersionFromFile w.fileContents w.jsonParse w.yamlParse currentVersion
              (jsSplit (w.inputs "version-path") '.')
          else ([], .ok (VersionData.jsonDoc .null, JsVal.val (.str currentVersion)))) with
    | (readEvents, .error e) => runPreEvents w ++ readEvents ++ [.setFailed e]
    | (readEvents, .ok (versionFileContents, oldVersionVal)) =>
      runTail w stripFlag readEvents versionFileContents oldVersionVal

/-- Is this event one of the git mutations (`add`, `commit`, tag
creation, `push`)? -/
def isGitMutation : Event → Bool
  | .gitAdd _ => true
  | .gitCommit _ => true
  | .gitCreateTag _ => true
  | .gitPush _ => true
  | _ => false

/-- Is this event a `core.setFailed` report? -/
def Event.isSetFailed : Event → Bool
  | .setFailed _ => true
  | _ => false

/-- The configured inputs of the C4 scenario: a literal current version
and a minor bump interval of `0`. -/
def c4Inputs : String → String := fun name =>
  if name == "git-message" then "chore(release): \x7bversion\x7d"
  else if name == "git-user-name" then "github-actions"
  else if name == "git-user-email" then "actions@github.com"
  else if name == "git-branch" then "main"
  else if name == "current-version" then "1.2.3"
  else if name == "version-path" then "version"
  else if name == "strip-commit-prefix" then "false"
  else if name == "major-release-commit-message" then "major release"
  else if name == "included-types" then "feat,fix"
  else if name == "minor-commit-types" then "feat"
  else if name == "minor-version-bump-interval" then "0"
  else if name == "patch-commit-types" then "fix"
  else if name == "patch-version-bump-interval" then "1"
  else ""

/-- A run with a zero minor bump interval and one feat commit. -/
def c4World : RunWorld :=
  { inputs := c4Inputs
    fileContents := ""
    changelog := "* feat: add feature"
    jsonParse := fun _ => .error "unused"
    yamlParse := fun _ => .error "unused"
    yamlStringify := fun _ => "" }

/-- C4 counterexample: a run whose minor bump interval is `0`
(non-positive) does NOT fail fast — no `core.setFailed` is ever
reported and the git mutations are performed; the version computation
runs with the zero interval. -/
theorem c4_no_interval_validation_counterexample :
    jsParseInt (c4World.inputs "minor-version-bump-interval") = .int 0 ∧
    (run c4World).any isGitMutation = true ∧
    (run c4World).all (fun e => ! e.isSetFailed) = true := by
  decide

/-- C4 amended: with a zero minor interval the run proceeds to
completion: the JS division produces `Infinity`, the version output is
the nonsense string `1.Infinity.0`, the commit/tag/push all happen, and
no configuration error is reported anywhere in the trace. -/
theorem c4_zero_interval_runs_to_completion :
    Event.setOutput "version" "1.Infinity.0" ∈ run c4World ∧
    Event.gitCreateTag "1.Infinity.0" ∈ run c4World ∧
    Event.gitPush "main" ∈ run c4World := by
  decide

theorem runPre_no_mutation (w : RunWorld) :
    ∀ ev ∈ runPreEvents w, isGitMutation ev = false := by
  intro ev hev
  by_cases hvf : jsStartsWith (w.inputs "current-version") "./" = true
  · simp [runPreEvents, hvf, List.mem_append, List.mem_cons] at hev
    rcases hev with rfl | rfl | rfl | rfl | rfl | rfl | rfl | rfl | rfl <;> rfl
  · simp [runPreEvents, hvf, List.mem_append, List.mem_cons] at hev
    rcases hev with rfl | rfl | rfl | rfl | rfl | rfl | rfl | rfl <;> rfl

theorem getVersionFromFile_json_error (fc : String) (jp yp : String → Except String Json)
    (path : String) (steps : List String) (doc : Json) (e : String)
    (hext : jsExtension path = "json") (hparse : jp fc = .ok doc)
    (hwalk : walkJsonToVersion doc steps = .error e) :
    getVersionFromFile fc jp yp path steps =
      ([.info ("version path steps: " ++ jsonStringifyList steps)], .error e) := by
  simp [getVersionFromFile, hext, hparse, hwalk]

theorem getVersionFromFile_json_ok (fc : String) (jp yp : String → Except String Json)
    (path : String) (steps : List String) (doc : Json) (leaf : JsVal) (evs : List Event)
    (hext : jsExtension path = "json") (hparse : jp fc = .ok doc)
    (hwalk : walkJsonToVersion doc steps = .ok (leaf, evs)) :
    getVersionFromFile fc jp yp path steps =
      ([.info ("version path steps: " ++ jsonStringifyList steps)] ++ evs,
        .ok (.jsonDoc doc, leaf)) := by
  simp [getVersionFromFile, hext, hparse, hwalk]

theorem walkJsonToVersion_nonstring_evs (doc : Json) (steps : List String)
    (leaf : JsVal) (evs : List Event)
    (h : walkJsonToVersion doc steps = .ok (leaf, evs)) (hne : jsTypeOf leaf ≠ "string") :
    evs = [.setFailed (expectedVersionMsg (steps.getLastD "undefined") (jsTypeOf leaf))] := by
  unfold walkJsonToVersion at h
  cases hr : readLeaf doc steps with
  | error e => rw [hr] at h; simp at h
  | ok l =>
    rw [hr] at h
    dsimp only at h
    by_cases hbool : (jsTypeOf l != "string") = true
    · rw [if_pos hbool] at h
      simp at h
      obtain ⟨h1, h2⟩ := h
      rw [← h2, ← h1]
      simp [List.getLastD_eq_getLast?]
    · rw [if_neg hbool] at h
      simp at h
      obtain ⟨h1, _h2⟩ := h
      simp at hbool
      exact absurd (h1 ▸ hbool) hne

theorem run_eq_of_read_error (w : RunWorld) (b : Bool) (revs : List Event) (e : String)
    (hb : jsGetBooleanInput (w.inputs "strip-commit-prefix") = .ok b)
    (hvf : jsStartsWith (w.inputs "current-version") "./" = true)
    (hread : getVersionFromFile w.fileContents w.jsonParse w.yamlParse
        (w.inputs "current-version") (jsSplit (w.inputs "version-path") '.')
      = (revs, .error e)) :
    run w = runPreEvents w ++ revs ++ [.setFailed e] := by
  unfold run
  rw [hb]
  dsimp only
  simp [hvf, hread]

theorem run_eq_of_read_ok (w : RunWorld) (b : Bool) (revs : List Event)
    (vfc : VersionData) (ov : JsVal)
    (hb : jsGetBooleanInput (w.inputs "strip-commit-prefix") = .ok b)
    (hvf : jsStartsWith (w.inputs "current-version") "./" = true)
    (hread : getVersionFromFile w.fileContents w.jsonParse w.yamlParse
        (w.inputs "current-version") (jsSplit (w.inputs "version-path") '.')
      = (revs, .ok (vfc, ov))) :
    run w = runTail w b revs vfc ov := by
  unfold run
  rw [hb]
  dsimp only
  simp [hvf, hread]

theorem runTail_nonstring (w : RunWorld) (b : Bool) (revs : List Event)
    (vfc : VersionData) (leaf : JsVal) (hne : jsTypeOf leaf ≠ "string") :
    runTail w b revs vfc leaf = runPreEvents w ++ revs ++
      [.setFailed "TypeError: oldVersion.substring is not a function"] := by
  cases leaf with
  | undefinedVal => rfl
  | val j =>
    cases j with
    | null => rfl
    | bool b2 => rfl
    | num n => rfl
    | str s => exact absurd rfl hne
    | arr es => rfl
    | obj fs => rfl

theorem getVersionFromFile_yaml_error (fc : String) (jp yp : String → Except String Json)
    (path : String) (steps : List String) (doc : Json) (e : String)
    (hext : jsExtension path = "yaml" ∨ jsExtension path = "yml") (hparse : yp fc = .ok doc)
    (hwalk : walkJsonToVersion doc steps = .error e) :
    getVersionFromFile fc jp yp path steps =
      ([.info ("version path steps: " ++ jsonStringifyList steps)], .error e) := by
  rcases hext with h | h <;> simp [getVersionFromFile, h, hparse, hwalk]

theorem getVersionFromFile_yaml_ok (fc : String) (jp yp : String → Except String Json)
    (path : String) (steps : List String) (doc : Json) (leaf : JsVal) (evs : List Event)
    (hext : jsExtension path = "yaml" ∨ jsExtension path = "yml") (hparse : yp fc = .ok doc)
    (hwalk : walkJsonToVersion doc steps = .ok (leaf, evs)) :
    getVersionFromFile fc jp yp path steps =
      ([.info ("version path steps: " ++ jsonStringifyList steps)] ++ evs,
        .ok (.jsonDoc doc, leaf)) := by
  rcases hext with h | h <;> simp [getVersionFromFile, h, hparse, hwalk]

theorem run_read_error_aborts (w : RunWorld) (b : Bool) (revs : List Event) (e : String)
    (hb : jsGetBooleanInput (w.inputs "strip-commit-prefix") = .ok b)
    (hvf : jsStartsWith (w.inputs "current-version") "./" = true)
    (hread : getVersionFromFile w.fileContents w.jsonParse w.yamlParse
        (w.inputs "current-version") (jsSplit (w.inputs "version-path") '.')
      = (revs, .error e))
    (hrevs : ∀ ev ∈ revs, isGitMutation ev = false) :
    (∃ m, Event.setFailed m ∈ run w) ∧ ∀ ev ∈ run w, isGitMutation ev = false := by
  have hrun := run_eq_of_read_error w b revs e hb hvf hread
  constructor
  · exact ⟨e, by rw [hrun]; simp⟩
  · intro ev hev
    rw [hrun] at hev
    simp only [List.mem_append, List.mem_cons, List.not_mem_nil, or_false] at hev
    rcases hev with (h | h) | rfl
    · exact runPre_no_mutation w ev h
    · exact hrevs ev h
    · rfl

theorem run_read_nonstring_aborts (w : RunWorld) (b : Bool) (revs : List Event)
    (vfc : VersionData) (leaf : JsVal)
    (hb : jsGetBooleanInput (w.inputs "strip-commit-prefix") = .ok b)
    (hvf : jsStartsWith (w.inputs "current-version") "./" = true)
    (hread : getVersionFromFile w.fileContents w.jsonParse w.yamlParse
        (w.inputs "current-version") (jsSplit (w.inputs "version-path") '.')
      = (revs, .ok (vfc, leaf)))
    (hne : jsTypeOf leaf ≠ "string")
    (hrevs : ∀ ev ∈ revs, isGitMutation ev = false) :
    (∃ m, Event.setFailed m ∈ run w) ∧ ∀ ev ∈ run w, isGitMutation ev = false := by
  have hrun := run_eq_of_read_ok w b revs vfc leaf hb hvf hread
  rw [runTail_nonstring w b revs vfc leaf hne] at hrun
  constructor
  · exact ⟨"TypeError: oldVersion.substring is not a function", by rw [hrun]; simp⟩
  · intro ev hev
    rw [hrun] at hev
    simp only [List.mem_append, List.mem_cons, List.not_mem_nil, or_false] at hev
    rcases hev with (h | h) | rfl
    · exact runPre_no_mutation w ev h
    · exact hrevs ev h
    · rfl

theorem jsGetProp_val_implies_obj (doc : Json) (k : String) (x : Json)
    (h : jsGetProp (.val doc) k = .ok (.val x)) :
    ∃ fields, doc = .obj fields ∧ lookupField fields k = some x := by
  cases doc with
  | null => simp [jsGetProp] at h
  | bool b => simp [jsGetProp] at h
  | num n => simp [jsGetProp] at h
  | str s => simp [jsGetProp] at h
  | arr es => simp [jsGetProp] at h
  | obj fields =>
    refine ⟨fields, rfl, ?_⟩
    simp only [jsGetProp, Except.ok.injEq] at h
    cases hl : lookupField fields k with
    | none => rw [hl] at h; simp at h
    | some y => rw [hl] at h; simp at h; rw [h]

theorem readString_setOk : ∀ (doc : Json) (steps : List String) (s v : String),
    readLeaf doc steps = .ok (.val (.str s)) →
    ∃ doc2 rep, walkAndSetVersion doc steps v = .ok (doc2, rep)
  | doc, [], s, v, h => by
    obtain ⟨fields, rfl, hl⟩ := jsGetProp_val_implies_obj doc "undefined" (.str s) h
    refine ⟨.obj (setField fields "undefined" (.str v)), false, ?_⟩
    simp [walkAndSetVersion, jsGetProp, hl, jsTypeOf]
  | doc, [last], s, v, h => by
    obtain ⟨fields, rfl, hl⟩ := jsGetProp_val_implies_obj doc last (.str s) h
    refine ⟨.obj (setField fields last (.str v)), false, ?_⟩
    simp [walkAndSetVersion, jsGetProp, hl, jsTypeOf]
  | doc, step :: next :: rest, s, v, h => by
    unfold readLeaf at h
    cases hg : jsGetProp (.val doc) step with
    | error e => rw [hg] at h; simp at h
    | ok child =>
      rw [hg] at h
      cases child with
      | undefinedVal => simp at h
      | val cj =>
        dsimp only at h
        obtain ⟨child2, rep, hch⟩ := readString_setOk cj (next :: rest) s v h
        obtain ⟨fields, rfl, hl⟩ := jsGetProp_val_implies_obj doc step cj hg
        refine ⟨.obj (setField fields step child2), rep, ?_⟩
        unfold walkAndSetVersion
        simp [jsGetProp, hl, hch]

/-- C8 amended: (1) for every version-file run over a hierarchical
document — json and yaml behave identically — where the property walk
of the READ throws (absent intermediate segment) or finds a non-string
leaf, the run reports a failure via `core.setFailed` and aborts before
any git mutation (`add`, `commit`, tag creation, `push`); the
non-string-leaf case is reported with the expected-vs-actual-type
message, while the absent-intermediate case fails with the thrown
property-access `TypeError`.  (2) The UPDATE path can never hit these
conditions in a run: it walks the same document and path only after the
read has already produced a string leaf, and a successful string read
implies the update walk succeeds. -/
theorem c8_walk_failure_aborts_before_git :
    (∀ (w : RunWorld) (b : Bool) (doc : Json),
      jsGetBooleanInput (w.inputs "strip-commit-prefix") = .ok b →
      jsStartsWith (w.inputs "current-version") "./" = true →
      ((jsExtension (w.inputs "current-version") = "json"
          ∧ w.jsonParse w.fileContents = .ok doc)
        ∨ ((jsExtension (w.inputs "current-version") = "yaml"
              ∨ jsExtension (w.inputs "current-version") = "yml")
            ∧ w.yamlParse w.fileContents = .ok doc)) →
      ((∃ e, walkJsonToVersion doc (jsSplit (w.inputs "version-path") '.') = .error e)
        ∨ (∃ leaf evs,
            walkJsonToVersion doc (jsSplit (w.inputs "version-path") '.') = .ok (leaf, evs)
            ∧ jsTypeOf leaf ≠ "string")) →
      (∃ m, Event.setFailed m ∈ run w) ∧ ∀ ev ∈ run w, isGitMutation ev = false) ∧
    (∀ (doc : Json) (steps : List String) (s v : String),
      readLeaf doc steps = .ok (.val (.str s)) →
      ∃ doc2 rep, walkAndSetVersion doc steps v = .ok (doc2, rep)) := by
  constructor
  · intro w b doc hb hvf hsrc hwalk
    rcases hwalk with ⟨e, he⟩ | ⟨leaf, evs, hok, hne⟩
    · have hread : getVersionFromFile w.fileContents w.jsonParse w.yamlParse
          (w.inputs "current-version") (jsSplit (w.inputs "version-path") '.')
        = ([.info ("version path steps: " ++
            jsonStringifyList (jsSplit (w.inputs "version-path") '.'))], .error e) := by
        rcases hsrc with ⟨hext, hparse⟩ | ⟨hext, hparse⟩
        · exact getVersionFromFile_json_error _ _ _ _ _ doc e hext hparse he
        · exact getVersionFromFile_yaml_error _ _ _ _ _ doc e hext hparse he
      refine run_read_error_aborts w b _ e hb hvf hread ?_
      intro ev hev
      simp only [List.mem_singleton] at hev
      subst hev
      rfl
    · have hevs := walkJsonToVersion_nonstring_evs doc _ leaf evs hok hne
      have hread : getVersionFromFile w.fileContents w.jsonParse w.yamlParse
          (w.inputs "current-version") (jsSplit (w.inputs "version-path") '.')
        = ([.info ("version path steps: " ++
            jsonStringifyList (jsSplit (w.inputs "version-path") '.'))] ++ evs,
            .ok (.jsonDoc doc, leaf)) := by
        rcases hsrc with ⟨hext, hparse⟩ | ⟨hext, hparse⟩
        · exact getVersionFromFile_json_ok _ _ _ _ _ doc leaf evs hext hparse hok
        · exact getVersionFromFile_yaml_ok _ _ _ _ _ doc leaf evs hext hparse hok
      refine run_read_nonstring_aborts w b _ _ leaf hb hvf hread hne ?_
      intro ev hev
      subst hevs
      simp only [List.mem_append, List.mem_cons, List.mem_singleton,
        List.not_mem_nil, or_false] at hev
      rcases hev with rfl | rfl <;> rfl
  · exact readString_setOk

/-- Inputs of the C8 scenario: a json version file whose property path
`a.version` hits an absent intermediate segment. -/
def c8Inputs : String → String := fun name =>
  if name == "current-version" then "./package.json"
  else if name == "version-path" then "a.version"
  else if name == "strip-commit-prefix" then "false"
  else if name == "included-types" then "feat,fix"
  else ""

/-- A version-file run whose parsed document is the empty object, so the
walk of `a.version` reads property `version` of `undefined`. -/
def c8World : RunWorld :=
  { inputs := c8Inputs
    fileContents := "\x7b\x7d"
    changelog := "* feat: x"
    jsonParse := fun _ => .ok (Json.obj [])
    yamlParse := fun _ => .error "unused"
    yamlStringify := fun _ => "" }

/-- Inputs of the yaml variant of the C8 scenario. -/
def c8YamlInputs : String → String := fun name =>
  if name == "current-version" then "./galaxy.yml"
  else if name == "version-path" then "a.version"
  else if name == "strip-commit-prefix" then "false"
  else if name == "included-types" then "feat,fix"
  else ""

/-- The same absent-intermediate scenario through the yaml branch. -/
def c8YamlWorld : RunWorld :=
  { inputs := c8YamlInputs
    fileContents := ""
    changelog := "* feat: x"
    jsonParse := fun _ => .error "unused"
    yamlParse := fun _ => .ok (Json.obj [])
    yamlStringify := fun _ => "" }

/-- C8 counterexample: when the walk hits an absent intermediate
segment, the run does fail and aborts before any git mutation, but NO
reported error states the expected vs. actual type (the claim requires
the expected-vs-actual report): the only failure is the property-access
`TypeError`. -/
theorem c8_absent_segment_counterexample :
    (run c8World).any Event.isSetFailed = true ∧
    (run c8World).all (fun e => ! isGitMutation e) = true ∧
    (run c8World).all (fun e =>
      match e with
      | .setFailed m => ! jsIncludes m "to be of type"
      | _ => true) = true := by
  decide

/-- C8 amended witness: the concrete absent-intermediate runs (json and
yaml variants) report a failure and perform no git mutation, and on a
document whose read produced the string leaf the update walk succeeds. -/
theorem c8_walk_failure_aborts_before_git_witness :
    ((∃ m, Event.setFailed m ∈ run c8World) ∧
      ∀ ev ∈ run c8World, isGitMutation ev = false) ∧
    ((∃ m, Event.setFailed m ∈ run c8YamlWorld) ∧
      ∀ ev ∈ run c8YamlWorld, isGitMutation ev = false) ∧
    (∃ doc2 rep, walkAndSetVersion (.obj [("version", .str "1.0.0")])
        ["version"] "9.9.9" = .ok (doc2, rep)) :=
  ⟨c8_walk_failure_aborts_before_git.1 c8World false (Json.obj [])
      rfl (by decide) (Or.inl ⟨by decide, rfl⟩)
      (Or.inl ⟨"TypeError: Cannot read properties of undefined", rfl⟩),
   c8_walk_failure_aborts_before_git.1 c8YamlWorld false (Json.obj [])
      rfl (by decide) (Or.inr ⟨Or.inr (by decide), rfl⟩)
      (Or.inl ⟨"TypeError: Cannot read properties of undefined", rfl⟩),
   c8_walk_failure_aborts_before_git.2 (.obj [("version", .str "1.0.0")])
      ["version"] "1.0.0" "9.9.9" rfl⟩
